import Mathlib

/-!
Verification development for the per-auction serialized mutation core of an
in-memory auction service (Express + in-memory DB + per-auction async mutex).

The source consists of:
- db.js: class AsyncLock (promise-chaining mutex) and class InMemoryDB
  (Map-based auction registry, per-id lock map, withAuctionLock coordinator);
- routes/auctions.js: the POST /auctions/:id/bid handler (validation chain
  plus mutation under the lock) and sanitizeAuction;
- server.js: the POST /auctions/:id/notify handler (simulated SSL gate,
  indexed lookup, status transition under the lock).

The stateful JavaScript is embedded with explicit state passing: the mutable
Map registry becomes an association list threaded through every operation,
in-place mutation of an aggregate becomes replacement of its registry entry
at the key it was found under, and the event-loop interleaving of the
promise-chaining mutex becomes a small labelled transition system over the
phases of the queued critical sections.
-/

/-- JavaScript values usable as auction identifiers: either a string or a
number. Every registry and lock operation in db.js normalizes with
String(id) before touching a Map. -/
inductive JsId where
  | str (s : String)
  | num (n : Int)
deriving DecidableEq, Repr

/-- The String(id) coercion applied by insertAuction, findAuctionById and
withAuctionLock in db.js. -/
def jsIdToString : JsId → String
  | .str s => s
  | .num n => toString n

/-- A bid record as pushed onto auction.bids in routes/auctions.js:
amount, bidderId, and the server timestamp from Date.now(). JS numbers are
modelled as rationals; the claims only compare them. -/
structure Bid where
  amount : ℚ
  bidderId : String
  ts : Nat
deriving DecidableEq, Repr

/-- An auction aggregate as seeded in db.js and mutated in
routes/auctions.js and server.js. currentBidderId is null (none) until a
bid is accepted. status is a plain string in the source: the values
occurring are active and notified. -/
structure Auction where
  id : JsId
  title : String
  ownerId : String
  status : String
  currentBid : ℚ
  currentBidderId : Option String
  bids : List Bid
deriving DecidableEq, Repr

/-- Map.prototype.get over the auctions Map, modelled as first-match lookup
in an association list keyed by the stringified id. -/
def mapGet (m : List (String × Auction)) (k : String) : Option Auction :=
  match m with
  | [] => none
  | (k1, v) :: rest => if k1 = k then some v else mapGet rest k

/-- Map.prototype.set over the auctions Map: replace the entry at the key
if present (keeping its position), otherwise append. In-place mutation of
an aggregate found under key k is modelled as mapSet at k. -/
def mapSet (m : List (String × Auction)) (k : String) (v : Auction) :
    List (String × Auction) :=
  match m with
  | [] => [(k, v)]
  | (k1, v1) :: rest =>
      if k1 = k then (k, v) :: rest else (k1, v1) :: mapSet rest k v

/-- The InMemoryDB state: the auctions Map and the set of auction ids that
currently own an AsyncLock (the keys of this.locks). The locks Map's values
carry no observable state in the sequential embedding beyond existence;
the queueing behaviour of each lock is modelled separately by the chain
transition system below. -/
structure DB where
  auctions : List (String × Auction)
  locks : List String
deriving DecidableEq, Repr

/-- InMemoryDB.findAuctionById: this.auctions.get(String(id)) or null. -/
def InMemoryDB.findAuctionById (db : DB) (id : JsId) : Option Auction :=
  mapGet db.auctions (jsIdToString id)

/-- InMemoryDB.insertAuction: this.auctions.set(String(auction.id), copy),
and lazily create the lock for that key if absent. -/
def InMemoryDB.insertAuction (db : DB) (a : Auction) : DB :=
  let key := jsIdToString a.id
  { auctions := mapSet db.auctions key a
    locks := if key ∈ db.locks then db.locks else db.locks ++ [key] }

/-- The lazy get-or-create of the per-auction lock performed by
InMemoryDB.withAuctionLock before running the critical section. -/
def InMemoryDB.lockEnsure (db : DB) (id : JsId) : DB :=
  let key := jsIdToString id
  if key ∈ db.locks then db else { db with locks := db.locks ++ [key] }

/-- InMemoryDB.withAuctionLock(id, fn): resolve or create the lock for
String(id), then run fn with a fresh findAuctionById(id) lookup performed
inside the critical section (the lambda passed to lock.run), not with a
snapshot taken before queueing. The callback receives the current state
and returns its result together with the successor state. -/
def InMemoryDB.withAuctionLock {α : Type} (db : DB) (id : JsId)
    (fn : Option Auction → DB → α × DB) : α × DB :=
  let db1 := InMemoryDB.lockEnsure db id
  fn (InMemoryDB.findAuctionById db1 id) db1

/-- The Vintage Guitar seed aggregate from the InMemoryDB constructor. -/
def guitarSeed : Auction :=
  { id := .str "1", title := "Vintage Guitar", ownerId := "alice"
    status := "active", currentBid := 100, currentBidderId := none
    bids := [] }

/-- The Rare Book seed aggregate from the InMemoryDB constructor. -/
def bookSeed : Auction :=
  { id := .str "2", title := "Rare Book", ownerId := "bob"
    status := "active", currentBid := 50, currentBidderId := none
    bids := [] }

/-- The InMemoryDB constructor: empty maps, then the two seed insertions. -/
def seededDB : DB :=
  InMemoryDB.insertAuction
    (InMemoryDB.insertAuction { auctions := [], locks := [] } guitarSeed)
    bookSeed

/-- The request body amount as the bid route sees it: a finite JS number,
a non-finite number (NaN or an infinity, which passes typeof but fails
Number.isFinite), or a missing/non-number value. -/
inductive ReqAmount where
  | fin (q : ℚ)
  | nonFin
  | notNum
deriving DecidableEq, Repr

/-- Outcome of the POST /auctions/:id/bid handler, one constructor per
response the handler can send. -/
inductive BidOutcome where
  | invalidAmount
  | notFound
  | notActive
  | ownerSelfBid
  | bidTooLow
  | accepted (view : Auction)
deriving DecidableEq, Repr

/-- HTTP status code sent with each bid outcome in routes/auctions.js. -/
def BidOutcome.statusCode : BidOutcome → Nat
  | .invalidAmount => 400
  | .notFound => 404
  | .notActive => 409
  | .ownerSelfBid => 403
  | .bidTooLow => 409
  | .accepted _ => 201

/-- sanitizeAuction from routes/auctions.js: copies id, title, ownerId,
status, currentBid, currentBidderId and bids into the response view. -/
def sanitizeAuction (a : Auction) : Auction :=
  { id := a.id, title := a.title, ownerId := a.ownerId, status := a.status
    currentBid := a.currentBid, currentBidderId := a.currentBidderId
    bids := a.bids }

/-- The POST /auctions/:id/bid handler from routes/auctions.js. The amount
guard (typeof, Number.isFinite, amount <= 0) runs before the lock is
touched; the remaining checks run inside db.withAuctionLock against the
aggregate looked up there. On success the aggregate is mutated in place
(currentBid, currentBidderId, bids.push with Date.now()) and the 201 body
carries sanitizeAuction of the updated aggregate. -/
def handleBid (db : DB) (rawId : JsId) (bidderId : String)
    (amount : ReqAmount) (now : Nat) : BidOutcome × DB :=
  match amount with
  | .nonFin => (.invalidAmount, db)
  | .notNum => (.invalidAmount, db)
  | .fin amt =>
    if amt ≤ 0 then (.invalidAmount, db)
    else
      InMemoryDB.withAuctionLock db (.str (jsIdToString rawId))
        (fun auctionOpt dbL =>
          match auctionOpt with
          | none => (.notFound, dbL)
          | some a =>
            if a.status ≠ "active" then (.notActive, dbL)
            else if a.ownerId = bidderId then (.ownerSelfBid, dbL)
            else if amt ≤ a.currentBid then (.bidTooLow, dbL)
            else
              let a1 : Auction :=
                { a with currentBid := amt, currentBidderId := some bidderId
                         bids := a.bids ++ [⟨amt, bidderId, now⟩] }
              (.accepted (sanitizeAuction a1),
               { dbL with
                  auctions := mapSet dbL.auctions (jsIdToString rawId) a1 }))

/-- The simulated SSL configuration from server.js: an enabled flag and a
validity timestamp (startup time plus 24 hours in the source). -/
structure SslConfig where
  enabled : Bool
  certValidUntil : Nat
deriving DecidableEq, Repr

/-- Outcome of the POST /auctions/:id/notify handler. internalError stands
for the catch-all 500 path, which the sequential embedding never reaches. -/
inductive NotifyOutcome where
  | sslInvalid
  | notFound
  | internalError
  | ok
deriving DecidableEq, Repr

/-- HTTP status code sent with each notify outcome in server.js. -/
def NotifyOutcome.statusCode : NotifyOutcome → Nat
  | .sslInvalid => 503
  | .notFound => 404
  | .internalError => 500
  | .ok => 200

/-- The POST /auctions/:id/notify handler from server.js: simulated SSL
validation, indexed findAuctionById lookup with 404 on absence, then the
status mutation to notified performed inside db.withAuctionLock. A null
aggregate inside the lock would raise and fall through to the 500 catch. -/
def handleNotify (ssl : SslConfig) (now : Nat) (db : DB) (rawId : JsId) :
    NotifyOutcome × DB :=
  if ¬ ssl.enabled ∨ ssl.certValidUntil < now then (.sslInvalid, db)
  else
    match InMemoryDB.findAuctionById db rawId with
    | none => (.notFound, db)
    | some _ =>
      let step := InMemoryDB.withAuctionLock db rawId
        (fun auctionOpt dbL =>
          match auctionOpt with
          | none => ((Except.error () : Except Unit Unit), dbL)
          | some a =>
            (Except.ok (),
             { dbL with
                auctions := mapSet dbL.auctions (jsIdToString rawId)
                  { a with status := "notified" } }))
      match step.1 with
      | .error _ => (.internalError, step.2)
      | .ok _ => (.ok, step.2)

/-- JS try/finally over a body whose outcome is already an Except value
(normal return or thrown error) and a finally block that only transforms
ambient state (resolveNext cannot throw): the finally block runs on both
exit paths and the body's outcome is propagated unchanged. -/
def jsTryFinally {ε α σ : Type} (body : Except ε α) (fin : σ → σ) (s : σ) :
    Except ε α × σ :=
  match body with
  | .ok a => (.ok a, fin s)
  | .error e => (.error e, fin s)

/-- The critical-section body of AsyncLock.run in db.js, entered once the
awaited predecessor promise has resolved: try { return await fn() }
finally { resolveNext() }. The Nat state counts how many times this run's
resolveNext has fired, i.e. how many times this holder released. -/
def AsyncLock.run {ε α : Type} (fn : Except ε α) (released : Nat) :
    Except ε α × Nat :=
  jsTryFinally fn (fun r => r + 1) released

/-- Phase of one queued run call in an AsyncLock promise chain: waiting on
the predecessor promise, running its critical section, or done (its fn has
exited and its resolveNext has fired). -/
inductive AsyncLock.Phase where
  | waiting
  | running
  | done
deriving DecidableEq, Repr

/-- One event-loop step of an AsyncLock promise chain holding n queued run
calls, indexed by arrival order (each call synchronously chains onto the
previous this.p promise, so chain position equals arrival order). A call
may start only when its awaited predecessor promise is resolved, which
happens exactly when the predecessor call is done; call 0 awaits the
already-resolved initial Promise.resolve(). A running call may finish,
resolving its own promise. -/
inductive AsyncLock.ChainStep (n : Nat) :
    (Nat → AsyncLock.Phase) → (Nat → AsyncLock.Phase) → Prop where
  | start (σ : Nat → AsyncLock.Phase) (i : Nat) (hi : i < n)
      (hw : σ i = .waiting) (hp : i = 0 ∨ σ (i - 1) = .done) :
      AsyncLock.ChainStep n σ (Function.update σ i .running)
  | finish (σ : Nat → AsyncLock.Phase) (i : Nat) (hi : i < n)
      (hr : σ i = .running) :
      AsyncLock.ChainStep n σ (Function.update σ i .done)

/-- Chain states reachable from the initial state in which every queued
call is still awaiting its predecessor. -/
def AsyncLock.ReachableChain (n : Nat) (σ : Nat → AsyncLock.Phase) : Prop :=
  Relation.ReflTransGen (AsyncLock.ChainStep n) (fun _ => AsyncLock.Phase.waiting) σ

/-- Chain invariant: whenever a call has left the waiting phase, every
earlier arrival is already done. -/
def AsyncLock.chainInv (σ : Nat → AsyncLock.Phase) : Prop :=
  ∀ j, σ j ≠ .waiting → ∀ i, i < j → σ i = .done

theorem AsyncLock.chainInv_step {n : Nat} {σ τ : Nat → AsyncLock.Phase}
    (hstep : AsyncLock.ChainStep n σ τ) (hinv : AsyncLock.chainInv σ) :
    AsyncLock.chainInv τ := by
  cases hstep with
  | start i hi hw hp =>
    intro j hj k hk
    by_cases hji : j = i
    · subst hji
      have hk2 : k ≠ j := Nat.ne_of_lt hk
      rw [Function.update_noteq hk2]
      rcases hp with h0 | hd
      · omega
      · rcases Nat.lt_or_ge k (j - 1) with hlt | hge
        · exact hinv (j - 1) (by rw [hd]; simp) k hlt
        · have : k = j - 1 := by omega
          rw [this]; exact hd
    · rw [Function.update_noteq hji] at hj
      have hkdone := hinv j hj k hk
      by_cases hki : k = i
      · subst hki
        rw [hw] at hkdone
        cases hkdone
      · rw [Function.update_noteq hki]
        exact hkdone
  | finish i hi hr =>
    intro j hj k hk
    by_cases hki : k = i
    · subst hki
      rw [Function.update_same]
    · rw [Function.update_noteq hki]
      by_cases hji : j = i
      · subst hji
        exact hinv j (by rw [hr]; simp) k hk
      · rw [Function.update_noteq hji] at hj
        exact hinv j hj k hk

theorem AsyncLock.chainInv_reachable {n : Nat} {σ : Nat → AsyncLock.Phase}
    (h : AsyncLock.ReachableChain n σ) : AsyncLock.chainInv σ := by
  induction h with
  | refl => intro j hj; simp at hj
  | tail hreach hstep ih => exact AsyncLock.chainInv_step hstep ih


/-- Looking up the key just written by mapSet yields the written value. -/
theorem mapGet_mapSet_same (m : List (String × Auction)) (k : String)
    (v : Auction) : mapGet (mapSet m k v) k = some v := by
  induction m with
  | nil => simp [mapSet, mapGet]
  | cons hd tl ih =>
    obtain ⟨k1, v1⟩ := hd
    by_cases h : k1 = k
    · simp [mapSet, mapGet, h]
    · simp [mapSet, mapGet, h, ih]

/-- mapSet leaves every other key's binding unchanged. -/
theorem mapGet_mapSet_other (m : List (String × Auction)) (k k2 : String)
    (v : Auction) (h : k2 ≠ k) : mapGet (mapSet m k v) k2 = mapGet m k2 := by
  have hne : ¬ k = k2 := fun h1 => h h1.symm
  induction m with
  | nil => simp only [mapSet, mapGet, if_neg hne]
  | cons hd tl ih =>
    obtain ⟨k1, v1⟩ := hd
    by_cases h1 : k1 = k
    · subst h1
      simp only [mapSet, if_pos rfl, mapGet, if_neg hne]
    · simp only [mapSet, if_neg h1, mapGet]
      by_cases h2 : k1 = k2
      · simp [h2]
      · simp [h2, ih]

/-- Lazily creating a lock does not touch the auctions Map. -/
theorem lockEnsure_auctions (db : DB) (id : JsId) :
    (InMemoryDB.lockEnsure db id).auctions = db.auctions := by
  by_cases h : jsIdToString id ∈ db.locks <;> simp [InMemoryDB.lockEnsure, h]

/-- Registry lookups are unaffected by lazy lock creation. -/
theorem findAuctionById_lockEnsure (db : DB) (id id2 : JsId) :
    InMemoryDB.findAuctionById (InMemoryDB.lockEnsure db id) id2
      = InMemoryDB.findAuctionById db id2 := by
  unfold InMemoryDB.findAuctionById
  rw [lockEnsure_auctions]

/-- String(id) is idempotent: restringifying an already-stringified id is
the identity, so the bid route's String(req.params.id) changes nothing in
any registry or lock operation. -/
theorem jsIdToString_restr (id : JsId) :
    jsIdToString (.str (jsIdToString id)) = jsIdToString id := rfl

/-- Characterization of the bid handler for a finite positive amount:
it performs the in-lock lookup and either rejects (leaving the auctions
Map untouched) or replaces the aggregate's registry entry with the
mutated aggregate. -/
theorem handleBid_fin_eq (db : DB) (rawId : JsId) (b : String) (amt : ℚ)
    (now : Nat) (hpos : 0 < amt) :
    handleBid db rawId b (.fin amt) now =
      match InMemoryDB.findAuctionById db rawId with
      | none => (.notFound, InMemoryDB.lockEnsure db rawId)
      | some a =>
        if a.status ≠ "active" then (.notActive, InMemoryDB.lockEnsure db rawId)
        else if a.ownerId = b then (.ownerSelfBid, InMemoryDB.lockEnsure db rawId)
        else if amt ≤ a.currentBid then (.bidTooLow, InMemoryDB.lockEnsure db rawId)
        else
          (.accepted (sanitizeAuction
            { a with currentBid := amt, currentBidderId := some b
                     bids := a.bids ++ [⟨amt, b, now⟩] }),
           { auctions := mapSet db.auctions (jsIdToString rawId)
               { a with currentBid := amt, currentBidderId := some b
                        bids := a.bids ++ [⟨amt, b, now⟩] }
             locks := (InMemoryDB.lockEnsure db rawId).locks }) := by
  have h1 : ¬ amt ≤ 0 := not_le.mpr hpos
  show (if amt ≤ 0 then ((.invalidAmount, db) : BidOutcome × DB) else _) = _
  rw [if_neg h1]
  have hL : InMemoryDB.lockEnsure db (.str (jsIdToString rawId))
      = InMemoryDB.lockEnsure db rawId := rfl
  have hF : InMemoryDB.findAuctionById db (.str (jsIdToString rawId))
      = InMemoryDB.findAuctionById db rawId := rfl
  simp only [InMemoryDB.withAuctionLock, hL, findAuctionById_lockEnsure, hF]
  cases hfind : InMemoryDB.findAuctionById db rawId with
  | none => rfl
  | some a =>
    by_cases hst : a.status ≠ "active"
    · simp only [if_pos hst]
    · simp only [if_neg hst]
      by_cases how : a.ownerId = b
      · simp only [if_pos how]
      · simp only [if_neg how]
        by_cases hlow : amt ≤ a.currentBid
        · simp only [if_pos hlow]
        · simp only [if_neg hlow, lockEnsure_auctions]

/-- Characterization of the notify handler when the simulated SSL config
passes its gate: 404 with untouched state on a missing auction, otherwise
a 200 with only the status field of the target aggregate rewritten. -/
theorem handleNotify_eq (ssl : SslConfig) (now : Nat) (db : DB)
    (rawId : JsId) (hen : ssl.enabled = true)
    (hval : now ≤ ssl.certValidUntil) :
    handleNotify ssl now db rawId =
      match InMemoryDB.findAuctionById db rawId with
      | none => (.notFound, db)
      | some a =>
        (.ok,
         { auctions := mapSet db.auctions (jsIdToString rawId)
             { a with status := "notified" }
           locks := (InMemoryDB.lockEnsure db rawId).locks }) := by
  have hgate : ¬ (¬ ssl.enabled = true ∨ ssl.certValidUntil < now) := by
    push_neg
    exact ⟨hen, hval⟩
  unfold handleNotify
  rw [if_neg hgate]
  cases hfind : InMemoryDB.findAuctionById db rawId with
  | none => rfl
  | some a =>
    simp only [InMemoryDB.withAuctionLock, findAuctionById_lockEnsure, hfind,
      lockEnsure_auctions]

/-- sanitizeAuction copies every field, so the response view is the
aggregate itself. -/
theorem sanitizeAuction_eq (a : Auction) : sanitizeAuction a = a := rfl

/-- The auctions Map built by the InMemoryDB constructor. -/
theorem seededDB_auctions :
    seededDB.auctions = [("1", guitarSeed), ("2", bookSeed)] := by decide

/-- Rejection of a bid on a missing aggregate. -/
theorem handleBid_fin_none (db : DB) (rawId : JsId) (b : String) (amt : ℚ)
    (now : Nat) (hpos : 0 < amt)
    (hfind : InMemoryDB.findAuctionById db rawId = none) :
    handleBid db rawId b (.fin amt) now
      = (.notFound, InMemoryDB.lockEnsure db rawId) := by
  rw [handleBid_fin_eq db rawId b amt now hpos, hfind]

/-- Rejection of a bid on a non-active aggregate. -/
theorem handleBid_fin_notActive (db : DB) (rawId : JsId) (b : String)
    (amt : ℚ) (now : Nat) (a : Auction) (hpos : 0 < amt)
    (hfind : InMemoryDB.findAuctionById db rawId = some a)
    (hst : a.status ≠ "active") :
    handleBid db rawId b (.fin amt) now
      = (.notActive, InMemoryDB.lockEnsure db rawId) := by
  rw [handleBid_fin_eq db rawId b amt now hpos, hfind]
  simp only [if_pos hst]

/-- Rejection of an owner's bid on their own active aggregate. -/
theorem handleBid_fin_selfBid (db : DB) (rawId : JsId) (b : String)
    (amt : ℚ) (now : Nat) (a : Auction) (hpos : 0 < amt)
    (hfind : InMemoryDB.findAuctionById db rawId = some a)
    (hst : a.status = "active") (how : a.ownerId = b) :
    handleBid db rawId b (.fin amt) now
      = (.ownerSelfBid, InMemoryDB.lockEnsure db rawId) := by
  have hst2 : ¬ a.status ≠ "active" := by rw [hst]; exact fun h => h rfl
  rw [handleBid_fin_eq db rawId b amt now hpos, hfind]
  simp only [if_neg hst2, if_pos how]

/-- Rejection of a bid at or below the current bid. -/
theorem handleBid_fin_tooLow (db : DB) (rawId : JsId) (b : String)
    (amt : ℚ) (now : Nat) (a : Auction) (hpos : 0 < amt)
    (hfind : InMemoryDB.findAuctionById db rawId = some a)
    (hst : a.status = "active") (how : a.ownerId ≠ b)
    (hlow : amt ≤ a.currentBid) :
    handleBid db rawId b (.fin amt) now
      = (.bidTooLow, InMemoryDB.lockEnsure db rawId) := by
  have hst2 : ¬ a.status ≠ "active" := by rw [hst]; exact fun h => h rfl
  rw [handleBid_fin_eq db rawId b amt now hpos, hfind]
  simp only [if_neg hst2, if_neg how, if_pos hlow]

/-- Acceptance of a valid strictly-higher bid by a non-owner on an active
aggregate: the registry entry is replaced by the mutated aggregate and the
201 body carries its view. -/
theorem handleBid_fin_accept (db : DB) (rawId : JsId) (b : String)
    (amt : ℚ) (now : Nat) (a : Auction) (hpos : 0 < amt)
    (hfind : InMemoryDB.findAuctionById db rawId = some a)
    (hst : a.status = "active") (how : a.ownerId ≠ b)
    (hgt : a.currentBid < amt) :
    handleBid db rawId b (.fin amt) now
      = (.accepted { a with currentBid := amt, currentBidderId := some b
                            bids := a.bids ++ [⟨amt, b, now⟩] },
         { auctions := mapSet db.auctions (jsIdToString rawId)
             { a with currentBid := amt, currentBidderId := some b
                      bids := a.bids ++ [⟨amt, b, now⟩] }
           locks := (InMemoryDB.lockEnsure db rawId).locks }) := by
  have hst2 : ¬ a.status ≠ "active" := by rw [hst]; exact fun h => h rfl
  have hlow : ¬ amt ≤ a.currentBid := not_le.mpr hgt
  rw [handleBid_fin_eq db rawId b amt now hpos, hfind]
  simp only [if_neg hst2, if_neg how, if_neg hlow, sanitizeAuction_eq]

/-- An invalid amount (non-number, non-finite, or non-positive) is
rejected before the lock machinery is touched: the state, including the
lock map, is returned unchanged. -/
theorem handleBid_invalid (db : DB) (rawId : JsId) (b : String)
    (now : Nat) (amt : ℚ) (h0 : amt ≤ 0) :
    handleBid db rawId b .nonFin now = (.invalidAmount, db)
    ∧ handleBid db rawId b .notNum now = (.invalidAmount, db)
    ∧ handleBid db rawId b (.fin amt) now = (.invalidAmount, db) := by
  refine ⟨rfl, rfl, ?_⟩
  show (if amt ≤ 0 then ((.invalidAmount, db) : BidOutcome × DB) else _) = _
  rw [if_pos h0]

/-- The bid-history invariant for one aggregate relative to its seed
value: currentBid is the amount of the last recorded bid (the seed if the
history is empty), and the history is strictly increasing in amount. -/
def auctionBidsInv (seed : ℚ) (a : Auction) : Prop :=
  a.currentBid = ((a.bids.getLast?).map Bid.amount).getD seed
  ∧ a.bids.Chain' (fun b1 b2 => b1.amount < b2.amount)

/-- The bid-history invariant over the whole registry, one seed value per
key. -/
def dbBidsInv (seeds : String → ℚ) (db : DB) : Prop :=
  ∀ k a, mapGet db.auctions k = some a → auctionBidsInv (seeds k) a

/-- Seed values of the two aggregates created by the InMemoryDB
constructor. -/
def seedValues : String → ℚ :=
  fun k => if k = "1" then 100 else if k = "2" then 50 else 0

/-- No aggregate ever records its own owner as the highest bidder. -/
def noSelfInv (db : DB) : Prop :=
  ∀ k a, mapGet db.auctions k = some a → a.currentBidderId ≠ some a.ownerId

theorem seededDB_bidsInv : dbBidsInv seedValues seededDB := by
  intro k a h
  rw [seededDB_auctions] at h
  simp only [mapGet] at h
  by_cases h1 : "1" = k
  · rw [if_pos h1] at h
    cases h
    subst h1
    exact ⟨by simp [guitarSeed, seedValues], by simp [guitarSeed]⟩
  · rw [if_neg h1] at h
    by_cases h2 : "2" = k
    · rw [if_pos h2] at h
      cases h
      subst h2
      exact ⟨by simp [bookSeed, seedValues], by simp [bookSeed]⟩
    · rw [if_neg h2] at h
      cases h

theorem seededDB_noSelfInv : noSelfInv seededDB := by
  intro k a h
  rw [seededDB_auctions] at h
  simp only [mapGet] at h
  by_cases h1 : "1" = k
  · rw [if_pos h1] at h
    cases h
    simp [guitarSeed]
  · rw [if_neg h1] at h
    by_cases h2 : "2" = k
    · rw [if_pos h2] at h
      cases h
      simp [bookSeed]
    · rw [if_neg h2] at h
      cases h

/-- Accepting a bid strictly above currentBid preserves the bid-history
invariant of the mutated aggregate. -/
theorem auctionBidsInv_accept (seed : ℚ) (a : Auction) (amt : ℚ)
    (b : String) (now : Nat) (hinv : auctionBidsInv seed a)
    (hgt : a.currentBid < amt) :
    auctionBidsInv seed
      { a with currentBid := amt, currentBidderId := some b
               bids := a.bids ++ [⟨amt, b, now⟩] } := by
  obtain ⟨h1, h2⟩ := hinv
  constructor
  · simp [List.getLast?_concat]
  · show List.Chain' (fun b1 b2 : Bid => b1.amount < b2.amount)
      (a.bids ++ [({ amount := amt, bidderId := b, ts := now } : Bid)])
    rw [List.chain'_append]
    refine ⟨h2, List.chain'_singleton _, ?_⟩
    intro x hx y hy
    have hy2 : ({ amount := amt, bidderId := b, ts := now } : Bid) = y := by
      simpa using hy
    have hx2 : a.bids.getLast? = some x := hx
    rw [← hy2]
    rw [hx2] at h1
    simp only [Option.map_some', Option.getD_some] at h1
    show x.amount < amt
    rw [← h1]
    exact hgt

/-- The registry-wide bid-history invariant only depends on the auctions
Map, not the lock map. -/
theorem dbBidsInv_auctions_eq (seeds : String → ℚ) {db1 db2 : DB}
    (h : db1.auctions = db2.auctions) (hinv : dbBidsInv seeds db1) :
    dbBidsInv seeds db2 := by
  intro k a hk
  apply hinv k a
  rw [h]
  exact hk

/-- Writing an aggregate that satisfies its key's invariant preserves the
registry-wide bid-history invariant. -/
theorem dbBidsInv_mapSet (seeds : String → ℚ) (db : DB) (k0 : String)
    (a1 : Auction) (locks2 : List String) (hinv : dbBidsInv seeds db)
    (ha1 : auctionBidsInv (seeds k0) a1) :
    dbBidsInv seeds { auctions := mapSet db.auctions k0 a1, locks := locks2 } := by
  intro k a2 h
  have h2 : mapGet (mapSet db.auctions k0 a1) k = some a2 := h
  by_cases hk : k = k0
  · subst hk
    rw [mapGet_mapSet_same] at h2
    cases h2
    exact ha1
  · rw [mapGet_mapSet_other _ _ _ _ hk] at h2
    exact hinv k a2 h2

/-- The no-self-bidder invariant only depends on the auctions Map. -/
theorem noSelfInv_auctions_eq {db1 db2 : DB}
    (h : db1.auctions = db2.auctions) (hinv : noSelfInv db1) :
    noSelfInv db2 := by
  intro k a hk
  apply hinv k a
  rw [h]
  exact hk

/-- Writing an aggregate whose recorded bidder is not its owner preserves
the no-self-bidder invariant. -/
theorem noSelfInv_mapSet (db : DB) (k0 : String) (a1 : Auction)
    (locks2 : List String) (hinv : noSelfInv db)
    (ha1 : a1.currentBidderId ≠ some a1.ownerId) :
    noSelfInv { auctions := mapSet db.auctions k0 a1, locks := locks2 } := by
  intro k a2 h
  have h2 : mapGet (mapSet db.auctions k0 a1) k = some a2 := h
  by_cases hk : k = k0
  · subst hk
    rw [mapGet_mapSet_same] at h2
    cases h2
    exact ha1
  · rw [mapGet_mapSet_other _ _ _ _ hk] at h2
    exact hinv k a2 h2

/-- The bid handler preserves the registry-wide bid-history invariant on
every path: fast rejection, each in-lock rejection, and acceptance. -/
theorem dbBidsInv_handleBid (seeds : String → ℚ) (db : DB) (rawId : JsId)
    (b : String) (amount : ReqAmount) (now : Nat)
    (hinv : dbBidsInv seeds db) :
    dbBidsInv seeds (handleBid db rawId b amount now).2 := by
  cases amount with
  | nonFin => exact hinv
  | notNum => exact hinv
  | fin amt =>
    by_cases hpos : 0 < amt
    · cases hfind : InMemoryDB.findAuctionById db rawId with
      | none =>
        rw [handleBid_fin_none db rawId b amt now hpos hfind]
        exact dbBidsInv_auctions_eq seeds (lockEnsure_auctions db rawId).symm hinv
      | some a =>
        by_cases hst : a.status = "active"
        · by_cases how : a.ownerId = b
          · rw [handleBid_fin_selfBid db rawId b amt now a hpos hfind hst how]
            exact dbBidsInv_auctions_eq seeds (lockEnsure_auctions db rawId).symm hinv
          · by_cases hlow : amt ≤ a.currentBid
            · rw [handleBid_fin_tooLow db rawId b amt now a hpos hfind hst how hlow]
              exact dbBidsInv_auctions_eq seeds (lockEnsure_auctions db rawId).symm hinv
            · rw [handleBid_fin_accept db rawId b amt now a hpos hfind hst how
                (not_le.mp hlow)]
              exact dbBidsInv_mapSet seeds db _ _ _ hinv
                (auctionBidsInv_accept _ a amt b now
                  (hinv (jsIdToString rawId) a hfind) (not_le.mp hlow))
        · rw [handleBid_fin_notActive db rawId b amt now a hpos hfind hst]
          exact dbBidsInv_auctions_eq seeds (lockEnsure_auctions db rawId).symm hinv
    · rw [(handleBid_invalid db rawId b now amt (not_lt.mp hpos)).2.2]
      exact hinv

/-- The notify handler either leaves the state untouched (failed SSL gate
or missing aggregate) or rewrites exactly the target aggregate's status. -/
theorem handleNotify_cases (ssl : SslConfig) (now : Nat) (db : DB)
    (rawId : JsId) :
    (handleNotify ssl now db rawId).2 = db
    ∨ ∃ a, InMemoryDB.findAuctionById db rawId = some a ∧
        (handleNotify ssl now db rawId).2
          = { auctions := mapSet db.auctions (jsIdToString rawId)
                { a with status := "notified" }
              locks := (InMemoryDB.lockEnsure db rawId).locks } := by
  by_cases hgate : ¬ ssl.enabled = true ∨ ssl.certValidUntil < now
  · left
    unfold handleNotify
    rw [if_pos hgate]
  · push_neg at hgate
    cases hfind : InMemoryDB.findAuctionById db rawId with
    | none =>
      left
      rw [handleNotify_eq ssl now db rawId hgate.1 hgate.2, hfind]
    | some a =>
      right
      refine ⟨a, rfl, ?_⟩
      rw [handleNotify_eq ssl now db rawId hgate.1 hgate.2, hfind]

/-- The notify handler preserves the registry-wide bid-history invariant:
it never touches currentBid or the bid history. -/
theorem dbBidsInv_handleNotify (seeds : String → ℚ) (ssl : SslConfig)
    (now : Nat) (db : DB) (rawId : JsId) (hinv : dbBidsInv seeds db) :
    dbBidsInv seeds (handleNotify ssl now db rawId).2 := by
  rcases handleNotify_cases ssl now db rawId with h | ⟨a, hfind, h⟩
  · rw [h]
    exact hinv
  · rw [h]
    exact dbBidsInv_mapSet seeds db _ _ _ hinv
      (hinv (jsIdToString rawId) a hfind)

/-- The bid handler preserves the no-self-bidder invariant on every path:
the owner check runs before the mutation, so an accepted bid's recorded
bidder always differs from the owner. -/
theorem noSelfInv_handleBid (db : DB) (rawId : JsId) (b : String)
    (amount : ReqAmount) (now : Nat) (hinv : noSelfInv db) :
    noSelfInv (handleBid db rawId b amount now).2 := by
  cases amount with
  | nonFin => exact hinv
  | notNum => exact hinv
  | fin amt =>
    by_cases hpos : 0 < amt
    · cases hfind : InMemoryDB.findAuctionById db rawId with
      | none =>
        rw [handleBid_fin_none db rawId b amt now hpos hfind]
        exact noSelfInv_auctions_eq (lockEnsure_auctions db rawId).symm hinv
      | some a =>
        by_cases hst : a.status = "active"
        · by_cases how : a.ownerId = b
          · rw [handleBid_fin_selfBid db rawId b amt now a hpos hfind hst how]
            exact noSelfInv_auctions_eq (lockEnsure_auctions db rawId).symm hinv
          · by_cases hlow : amt ≤ a.currentBid
            · rw [handleBid_fin_tooLow db rawId b amt now a hpos hfind hst how hlow]
              exact noSelfInv_auctions_eq (lockEnsure_auctions db rawId).symm hinv
            · rw [handleBid_fin_accept db rawId b amt now a hpos hfind hst how
                (not_le.mp hlow)]
              apply noSelfInv_mapSet db _ _ _ hinv
              intro hEq
              have hb : b = a.ownerId := Option.some_inj.mp hEq
              exact how hb.symm
        · rw [handleBid_fin_notActive db rawId b amt now a hpos hfind hst]
          exact noSelfInv_auctions_eq (lockEnsure_auctions db rawId).symm hinv
    · rw [(handleBid_invalid db rawId b now amt (not_lt.mp hpos)).2.2]
      exact hinv

/-- The notify handler preserves the no-self-bidder invariant: it never
touches currentBidderId or ownerId. -/
theorem noSelfInv_handleNotify (ssl : SslConfig) (now : Nat) (db : DB)
    (rawId : JsId) (hinv : noSelfInv db) :
    noSelfInv (handleNotify ssl now db rawId).2 := by
  rcases handleNotify_cases ssl now db rawId with h | ⟨a, hfind, h⟩
  · rw [h]
    exact hinv
  · rw [h]
    exact noSelfInv_mapSet db _ _ _ hinv (hinv (jsIdToString rawId) a hfind)

/-- A self-bid never mutates the registry and is never accepted,
whatever the amount and status; the only variation is which rejection
fires first. -/
theorem handleBid_selfBid_rejected (db : DB) (rawId : JsId) (b : String)
    (amount : ReqAmount) (now : Nat) (a : Auction)
    (hfind : InMemoryDB.findAuctionById db rawId = some a)
    (how : a.ownerId = b) :
    (handleBid db rawId b amount now).2.auctions = db.auctions
    ∧ ∀ v, (handleBid db rawId b amount now).1 ≠ .accepted v := by
  cases amount with
  | nonFin => exact ⟨rfl, fun v h => by cases h⟩
  | notNum => exact ⟨rfl, fun v h => by cases h⟩
  | fin amt =>
    by_cases hpos : 0 < amt
    · by_cases hst : a.status = "active"
      · rw [handleBid_fin_selfBid db rawId b amt now a hpos hfind hst how]
        exact ⟨lockEnsure_auctions db rawId, fun v h => by cases h⟩
      · rw [handleBid_fin_notActive db rawId b amt now a hpos hfind hst]
        exact ⟨lockEnsure_auctions db rawId, fun v h => by cases h⟩
    · rw [(handleBid_invalid db rawId b now amt (not_lt.mp hpos)).2.2]
      exact ⟨rfl, fun v h => by cases h⟩

/-- C1: within AsyncLock.run's critical section the release (resolveNext
in the finally block) fires exactly once on every exit path — normal
return (including validation rejections, which the bid transaction
returns rather than throws) and thrown error alike — and the callback's
return value or error is propagated to the caller unchanged: the error
does not skip the release and the release does not swallow the error. -/
theorem C1_release_once_propagate (ε α : Type) (fn : Except ε α)
    (released : Nat) (v : α) (e : ε) :
    (AsyncLock.run fn released).2 = released + 1
    ∧ (AsyncLock.run fn released).1 = fn
    ∧ AsyncLock.run (Except.ok v : Except ε α) released
        = (Except.ok v, released + 1)
    ∧ AsyncLock.run (Except.error e : Except ε α) released
        = (Except.error e, released + 1) := by
  refine ⟨?_, ?_, rfl, rfl⟩ <;> cases fn <;> rfl

/-- C2: in every state reachable by the promise-chain transition system of
one auction's AsyncLock, at most one queued critical section is running —
no two read-validate-write sequences for the same auction execute
concurrently — and a queued call has left the waiting phase only if every
earlier arrival has already finished: admission into the critical section
is FIFO by arrival order (chain position equals arrival order, since each
run call synchronously chains onto the previous promise), with no queue
jumping by newer acquirers. -/
theorem C2_mutex_fifo (n : Nat) (σ : Nat → AsyncLock.Phase)
    (h : AsyncLock.ReachableChain n σ) :
    (∀ i j, σ i = .running → σ j = .running → i = j)
    ∧ (∀ i j, i < j → σ j ≠ .waiting → σ i = .done) := by
  have hinv := AsyncLock.chainInv_reachable h
  constructor
  · intro i j hi hj
    rcases lt_trichotomy i j with hlt | heq | hgt
    · have hd := hinv j (by simp [hj]) i hlt
      rw [hi] at hd
      exact absurd hd (by decide)
    · exact heq
    · have hd := hinv i (by simp [hi]) j hgt
      rw [hj] at hd
      exact absurd hd (by decide)
  · intro i j hlt hj
    exact hinv j hj i hlt

/-- Example chain state for the C2 witness: two queued critical sections,
the first finished, the second admitted and running. -/
def chainEx : Nat → AsyncLock.Phase :=
  fun i => if i = 0 then .done else if i = 1 then .running else .waiting

theorem chainEx_reachable : AsyncLock.ReachableChain 2 chainEx := by
  have heq : Function.update (Function.update (Function.update
      (fun _ => AsyncLock.Phase.waiting) 0 AsyncLock.Phase.running)
      0 AsyncLock.Phase.done) 1 AsyncLock.Phase.running = chainEx := by
    funext i
    match i with
    | 0 => rfl
    | 1 => rfl
    | (k + 2) => rfl
  rw [← heq]
  exact Relation.ReflTransGen.tail
    (Relation.ReflTransGen.tail
      (Relation.ReflTransGen.tail Relation.ReflTransGen.refl
        (AsyncLock.ChainStep.start _ 0 (by omega) rfl (Or.inl rfl)))
      (AsyncLock.ChainStep.finish _ 0 (by omega) rfl))
    (AsyncLock.ChainStep.start _ 1 (by omega) rfl (Or.inr rfl))

/-- Witness for C2: in the concrete reachable chain state, the earlier
arrival is already done while the later one runs. -/
theorem C2_mutex_fifo_witness : chainEx 0 = AsyncLock.Phase.done :=
  (C2_mutex_fifo 2 chainEx chainEx_reachable).2 0 1 (by omega) (by decide)

/-- C3: the first failing validation check determines the bid outcome: an
amount that is not a finite positive number is rejected with 400 before
the lock machinery is touched (state returned fully unchanged, the
permitted fast-reject); then, against the aggregate observed inside the
lock, a missing aggregate gives NotFound (404), a non-active status
Conflict (409), an owner self-bid Forbidden (403), and an amount at or
below currentBid Conflict (409). -/
theorem C3_validation_order (db : DB) (rawId : JsId) (b : String)
    (amt : ℚ) (now : Nat) :
    (handleBid db rawId b .nonFin now = (.invalidAmount, db)
     ∧ handleBid db rawId b .notNum now = (.invalidAmount, db)
     ∧ (amt ≤ 0 → handleBid db rawId b (.fin amt) now = (.invalidAmount, db)))
    ∧ (0 < amt →
        (InMemoryDB.findAuctionById db rawId = none →
          (handleBid db rawId b (.fin amt) now).1 = .notFound)
        ∧ ∀ a, InMemoryDB.findAuctionById db rawId = some a →
            (a.status ≠ "active" →
              (handleBid db rawId b (.fin amt) now).1 = .notActive)
            ∧ (a.status = "active" → a.ownerId = b →
              (handleBid db rawId b (.fin amt) now).1 = .ownerSelfBid)
            ∧ (a.status = "active" → a.ownerId ≠ b → amt ≤ a.currentBid →
              (handleBid db rawId b (.fin amt) now).1 = .bidTooLow))
    ∧ (BidOutcome.statusCode .invalidAmount = 400
       ∧ BidOutcome.statusCode .notFound = 404
       ∧ BidOutcome.statusCode .notActive = 409
       ∧ BidOutcome.statusCode .ownerSelfBid = 403
       ∧ BidOutcome.statusCode .bidTooLow = 409) := by
  refine ⟨⟨rfl, rfl, fun h0 => (handleBid_invalid db rawId b now amt h0).2.2⟩,
    ?_, by decide⟩
  intro hpos
  constructor
  · intro hfind
    rw [handleBid_fin_none db rawId b amt now hpos hfind]
  · intro a hfind
    refine ⟨?_, ?_, ?_⟩
    · intro hst
      rw [handleBid_fin_notActive db rawId b amt now a hpos hfind hst]
    · intro hst how
      rw [handleBid_fin_selfBid db rawId b amt now a hpos hfind hst how]
    · intro hst how hlow
      rw [handleBid_fin_tooLow db rawId b amt now a hpos hfind hst how hlow]

/-- Witness for C3: on the seeded registry, a 50 bid by dave on auction 1
(currentBid 100) is rejected as too low. -/
theorem C3_validation_order_witness :
    (handleBid seededDB (.str "1") "dave" (.fin 50) 7).1 = .bidTooLow :=
  (((C3_validation_order seededDB (.str "1") "dave" 50 7).2.1 (by norm_num)).2
    guitarSeed (by decide)).2.2 rfl (by decide) (by decide)

/-- C4: a bid on an existing active auction by a non-owner, with a finite
positive amount strictly above currentBid, sets currentBid to the amount,
sets currentBidderId to the bidder, appends exactly one Bid record with
the server timestamp, responds 201, and the updated aggregate is what the
registry returns afterwards. -/
theorem C4_successful_bid (db : DB) (rawId : JsId) (b : String) (amt : ℚ)
    (now : Nat) (a : Auction)
    (hfind : InMemoryDB.findAuctionById db rawId = some a)
    (hactive : a.status = "active") (howner : a.ownerId ≠ b)
    (hpos : 0 < amt) (hgt : a.currentBid < amt) :
    handleBid db rawId b (.fin amt) now
      = (.accepted { a with currentBid := amt, currentBidderId := some b
                            bids := a.bids ++ [⟨amt, b, now⟩] },
         { auctions := mapSet db.auctions (jsIdToString rawId)
             { a with currentBid := amt, currentBidderId := some b
                      bids := a.bids ++ [⟨amt, b, now⟩] }
           locks := (InMemoryDB.lockEnsure db rawId).locks })
    ∧ (handleBid db rawId b (.fin amt) now).1.statusCode = 201
    ∧ InMemoryDB.findAuctionById (handleBid db rawId b (.fin amt) now).2 rawId
        = some { a with currentBid := amt, currentBidderId := some b
                        bids := a.bids ++ [⟨amt, b, now⟩] } := by
  have h := handleBid_fin_accept db rawId b amt now a hpos hfind hactive howner hgt
  refine ⟨h, ?_, ?_⟩
  · rw [h]
    rfl
  · rw [h]
    exact mapGet_mapSet_same db.auctions (jsIdToString rawId) _

/-- Witness for C4: charlie's 120 bid on seeded auction 1 is accepted with
a 201. -/
theorem C4_successful_bid_witness :
    (handleBid seededDB (.str "1") "charlie" (.fin 120) 5).1.statusCode = 201 :=
  (C4_successful_bid seededDB (.str "1") "charlie" 120 5 guitarSeed
    (by decide) rfl (by decide) (by norm_num) (by decide)).2.1

/-- C5: for every auction, currentBid equals the amount of the last
element of its bids (or the seed value when bids is empty) and bids is
strictly increasing in amount; the seeded state satisfies this and every
operation preserves it — handleBid on every accept and reject path,
handleNotify, and lookup (findAuctionById is pure: it produces no
successor state, so there is nothing further to preserve). -/
theorem C5_invariant_preserved (seeds : String → ℚ) (db : DB)
    (rawId : JsId) (b : String) (amount : ReqAmount) (now : Nat)
    (ssl : SslConfig) (t : Nat) (hinv : dbBidsInv seeds db) :
    dbBidsInv seedValues seededDB
    ∧ dbBidsInv seeds (handleBid db rawId b amount now).2
    ∧ dbBidsInv seeds (handleNotify ssl t db rawId).2 :=
  ⟨seededDB_bidsInv,
   dbBidsInv_handleBid seeds db rawId b amount now hinv,
   dbBidsInv_handleNotify seeds ssl t db rawId hinv⟩

/-- Witness for C5: the invariant survives charlie's accepted bid on the
seeded registry. -/
theorem C5_invariant_preserved_witness :
    dbBidsInv seedValues
      (handleBid seededDB (.str "1") "charlie" (.fin 120) 5).2 :=
  (C5_invariant_preserved seedValues seededDB (.str "1") "charlie"
    (.fin 120) 5 { enabled := true, certValidUntil := 0 } 0
    seededDB_bidsInv).2.1

/-- The simulated SSL config as server.js initializes it at a startup
time of 0: enabled, valid for the next 24 hours (86400000 ms). -/
def sslDev : SslConfig := { enabled := true, certValidUntil := 86400000 }

/-- The reachable state in which auction 1 has been notified. -/
def notifiedDB : DB := (handleNotify sslDev 0 seededDB (.str "1")).2

/-- C6 counterexample: in the reachable state where auction 1 (owned by
alice) has been notified, alice's self-bid of 150 is rejected with
Conflict 409 by the status check, which runs before the ownership check —
refuting that a self-bid is always rejected with Forbidden regardless of
auction status. -/
theorem C6_counterexample_self_bid_not_forbidden :
    (InMemoryDB.findAuctionById notifiedDB (.str "1")).map Auction.ownerId
      = some "alice"
    ∧ (handleBid notifiedDB (.str "1") "alice" (.fin 150) 3).1 = .notActive
    ∧ (handleBid notifiedDB (.str "1") "alice" (.fin 150) 3).1.statusCode = 409
    ∧ BidOutcome.statusCode .ownerSelfBid = 403 := by
  decide

/-- C6 (amended): currentBidderId never equals some ownerId in any
reachable state — it holds in the seeded state (currentBidderId null) and
is preserved by every operation: by handleBid on every path, including
accepted non-owner bids (the only case that writes currentBidderId, and
there the ownership check has already ruled out the owner), and by
handleNotify; moreover a self-bid never mutates the registry and is never
accepted, and when the target auction is active and the amount is a
finite positive number the self-bid is rejected with Forbidden regardless
of how the amount compares to currentBid, while otherwise an earlier
check (invalid amount 400, inactive auction 409) fires first. -/
theorem C6_no_self_bid_amended :
    noSelfInv seededDB
    ∧ (∀ (db : DB) (rawId : JsId) (b : String) (amount : ReqAmount)
        (now : Nat), noSelfInv db →
        noSelfInv (handleBid db rawId b amount now).2)
    ∧ (∀ (ssl : SslConfig) (t : Nat) (db : DB) (rawId : JsId),
        noSelfInv db → noSelfInv (handleNotify ssl t db rawId).2)
    ∧ (∀ (db : DB) (rawId : JsId) (b : String) (amount : ReqAmount)
        (now : Nat) (a : Auction),
        InMemoryDB.findAuctionById db rawId = some a → a.ownerId = b →
        (handleBid db rawId b amount now).2.auctions = db.auctions
        ∧ ∀ v, (handleBid db rawId b amount now).1 ≠ .accepted v)
    ∧ (∀ (db : DB) (rawId : JsId) (b : String) (amt : ℚ) (now : Nat)
        (a : Auction),
        InMemoryDB.findAuctionById db rawId = some a → a.ownerId = b →
        a.status = "active" → 0 < amt →
        (handleBid db rawId b (.fin amt) now).1 = .ownerSelfBid) := by
  refine ⟨seededDB_noSelfInv,
    fun db rawId b amount now hinv =>
      noSelfInv_handleBid db rawId b amount now hinv,
    fun ssl t db rawId hinv => noSelfInv_handleNotify ssl t db rawId hinv,
    fun db rawId b amount now a hfind how =>
      handleBid_selfBid_rejected db rawId b amount now a hfind how,
    fun db rawId b amt now a hfind how hst hpos => ?_⟩
  rw [handleBid_fin_selfBid db rawId b amt now a hpos hfind hst how]

/-- Witness for the amended C6: the invariant survives charlie's accepted
non-owner bid on the seeded registry (the one path that writes
currentBidderId), and alice's self-bid of 150 on her own active seeded
auction is rejected with Forbidden. -/
theorem C6_no_self_bid_amended_witness :
    noSelfInv (handleBid seededDB (.str "1") "charlie" (.fin 120) 5).2
    ∧ (handleBid seededDB (.str "1") "alice" (.fin 150) 3).1 = .ownerSelfBid :=
  ⟨C6_no_self_bid_amended.2.1 seededDB (.str "1") "charlie" (.fin 120) 5
    seededDB_noSelfInv,
   C6_no_self_bid_amended.2.2.2.2 seededDB (.str "1") "alice" 150 3
    guitarSeed (by decide) rfl rfl (by norm_num)⟩

/-- C7: withAuctionLock passes its callback the aggregate obtained by a
fresh findAuctionById lookup against the state at execution time (the
lookup sits inside the lambda handed to the lock), never a snapshot taken
before queueing; a callback sequenced after another locked operation on
the same id therefore observes exactly the state that operation left —
concretely, a callback run after charlie's accepted 120 bid observes
currentBid 120, not the pre-queueing 100. -/
theorem C7_fresh_lookup_after_acquire (α β : Type) (db : DB) (id : JsId)
    (f : Option Auction → DB → α × DB) (g : Option Auction → DB → β × DB) :
    InMemoryDB.withAuctionLock db id g
      = g (InMemoryDB.findAuctionById db id) (InMemoryDB.lockEnsure db id)
    ∧ InMemoryDB.withAuctionLock (InMemoryDB.withAuctionLock db id f).2 id g
      = g (InMemoryDB.findAuctionById
            (InMemoryDB.withAuctionLock db id f).2 id)
          (InMemoryDB.lockEnsure (InMemoryDB.withAuctionLock db id f).2 id)
    ∧ (InMemoryDB.withAuctionLock
        (handleBid seededDB (.str "1") "charlie" (.fin 120) 5).2 (.str "1")
        (fun aOpt dbL => (aOpt, dbL))).1
      = some { guitarSeed with
                currentBid := 120
                currentBidderId := some "charlie"
                bids := [⟨120, "charlie", 5⟩] } := by
  refine ⟨?_, ?_, by decide⟩
  · simp only [InMemoryDB.withAuctionLock, findAuctionById_lockEnsure]
  · simp only [InMemoryDB.withAuctionLock, findAuctionById_lockEnsure]

/-- First state of the C8 scenario: charlie's 120 bid applied. -/
def c8Db1 : DB := (handleBid seededDB (.str "1") "charlie" (.fin 120) 1).2

/-- Second state of the C8 scenario: dave's rejected 110 bid applied. -/
def c8Db2 : DB := (handleBid c8Db1 (.str "1") "dave" (.fin 110) 2).2

/-- Third state of the C8 scenario: alice's rejected self-bid applied. -/
def c8Db3 : DB := (handleBid c8Db2 (.str "1") "alice" (.fin 150) 3).2

/-- C8: from the seeded registry (auction 1: currentBid 100, owner
alice): charlie's 120 bid returns 201 and currentBid becomes 120; the
following 110 bid by dave returns 409 Conflict; alice's 150 self-bid
returns 403 Forbidden; a 50 bid on non-existent auction 99 returns
404. -/
theorem C8_scenario :
    (handleBid seededDB (.str "1") "charlie" (.fin 120) 1).1.statusCode = 201
    ∧ (InMemoryDB.findAuctionById c8Db1 (.str "1")).map Auction.currentBid
        = some 120
    ∧ (handleBid c8Db1 (.str "1") "dave" (.fin 110) 2).1 = .bidTooLow
    ∧ (handleBid c8Db1 (.str "1") "dave" (.fin 110) 2).1.statusCode = 409
    ∧ (handleBid c8Db2 (.str "1") "alice" (.fin 150) 3).1 = .ownerSelfBid
    ∧ (handleBid c8Db2 (.str "1") "alice" (.fin 150) 3).1.statusCode = 403
    ∧ (handleBid c8Db3 (.str "99") "charlie" (.fin 50) 4).1 = .notFound
    ∧ (handleBid c8Db3 (.str "99") "charlie" (.fin 50) 4).1.statusCode = 404 := by
  decide

/-- C9: with the simulated SSL collaborator healthy (enabled and
unexpired, as server.js configures it at startup), notifying an existing
auction drives its status to notified through the lock coordinator and
returns 200, leaving every other field of the aggregate (id, title,
ownerId, currentBid, currentBidderId, bids) and every other registry
entry unchanged; notifying an unknown id returns 404 and changes no
state. -/
theorem C9_notify_transition (ssl : SslConfig) (now : Nat) (db : DB)
    (rawId : JsId) (hen : ssl.enabled = true)
    (hval : now ≤ ssl.certValidUntil) :
    (InMemoryDB.findAuctionById db rawId = none →
      handleNotify ssl now db rawId = (.notFound, db)
      ∧ NotifyOutcome.statusCode .notFound = 404)
    ∧ (∀ a, InMemoryDB.findAuctionById db rawId = some a →
        (handleNotify ssl now db rawId).1 = .ok
        ∧ NotifyOutcome.statusCode .ok = 200
        ∧ InMemoryDB.findAuctionById (handleNotify ssl now db rawId).2 rawId
            = some { a with status := "notified" }
        ∧ ∀ id2, jsIdToString id2 ≠ jsIdToString rawId →
            InMemoryDB.findAuctionById (handleNotify ssl now db rawId).2 id2
              = InMemoryDB.findAuctionById db id2) := by
  constructor
  · intro hfind
    exact ⟨by rw [handleNotify_eq ssl now db rawId hen hval, hfind], rfl⟩
  · intro a hfind
    have h := handleNotify_eq ssl now db rawId hen hval
    rw [hfind] at h
    refine ⟨by rw [h], rfl, ?_, ?_⟩
    · rw [h]
      exact mapGet_mapSet_same db.auctions (jsIdToString rawId) _
    · intro id2 hne
      rw [h]
      exact mapGet_mapSet_other db.auctions (jsIdToString rawId)
        (jsIdToString id2) _ hne

/-- Witness for C9: notifying seeded auction 2 leaves it identical except
for status notified. -/
theorem C9_notify_transition_witness :
    InMemoryDB.findAuctionById (handleNotify sslDev 0 seededDB (.str "2")).2
      (.str "2") = some { bookSeed with status := "notified" } :=
  ((C9_notify_transition sslDev 0 seededDB (.str "2") rfl (by norm_num)).2
    bookSeed (by decide)).2.2.1

/-- C10: every registry and lock operation normalizes the auction id with
String(): lookup, the lock coordinator and lazy lock creation behave
identically on an id and on its stringified form, an aggregate inserted
under any id is found both under that id and under its stringified form
(same aggregate, same key, hence same mutex), and a numeric id
normalizes to exactly its decimal string. -/
theorem C10_id_normalization (db : DB) (id : JsId) (a : Auction)
    (α : Type) (fn : Option Auction → DB → α × DB) (n : Int) :
    InMemoryDB.findAuctionById db id
      = InMemoryDB.findAuctionById db (.str (jsIdToString id))
    ∧ InMemoryDB.withAuctionLock db id fn
      = InMemoryDB.withAuctionLock db (.str (jsIdToString id)) fn
    ∧ InMemoryDB.lockEnsure db id
      = InMemoryDB.lockEnsure db (.str (jsIdToString id))
    ∧ InMemoryDB.findAuctionById (InMemoryDB.insertAuction db a) a.id = some a
    ∧ InMemoryDB.findAuctionById (InMemoryDB.insertAuction db a)
        (.str (jsIdToString a.id)) = some a
    ∧ jsIdToString (.num n) = jsIdToString (.str (toString n)) := by
  refine ⟨rfl, rfl, rfl, ?_, ?_, rfl⟩
  · exact mapGet_mapSet_same db.auctions (jsIdToString a.id) a
  · exact mapGet_mapSet_same db.auctions (jsIdToString a.id) a
